import Mathlib

/-!
Verification of the SmartStockAgent deep-research pipeline
(`src/app/actions/research-v3.ts` and `src/lib/ai/stream-helper.ts`).

The TypeScript source is shallowly embedded below.  External capabilities
(the LLM generation client, the web-search client, the market-quote adapter
and the persistence layer) are modelled as record-of-functions parameters
returning `Except`, mirroring promise rejection.  The JavaScript built-ins
`JSON.parse` / `JSON.stringify` and `String.prototype.match` with the
regexes `/\{[\s\S]*\}/` and `/\[[\s\S]*\]/` are modelled by executable Lean
functions (`JSONparse`, `stringify`, `matchSpan`).
-/

namespace SSA

/-- JSON values as produced by `JSON.parse`.  Numbers keep their raw source
token (the numeric-precision details of JS floats are irrelevant to every
use in this code base: numbers only flow into string coercions). -/
inductive Json where
  | null : Json
  | bool (b : Bool) : Json
  | num (tok : String) : Json
  | str (s : String) : Json
  | arr (elems : List Json) : Json
  | obj (members : List (String × Json)) : Json
deriving Repr

/-- JSON whitespace (also the common characters trimmed by `String.trim`). -/
def isJsWs (c : Char) : Bool :=
  c = ' ' || c = '\t' || c = '\n' || c = '\r'

def parseHexDigit (c : Char) : Option Nat :=
  if '0' ≤ c ∧ c ≤ '9' then some (c.toNat - '0'.toNat)
  else if 'a' ≤ c ∧ c ≤ 'f' then some (c.toNat - 'a'.toNat + 10)
  else if 'A' ≤ c ∧ c ≤ 'F' then some (c.toNat - 'A'.toNat + 10)
  else none

/-- The translation of a single-character JSON string escape (`\"`, `\\`,
`\/`, `\b`, `\f`, `\n`, `\r`, `\t`). -/
def unescapeChar (c : Char) : Option Char :=
  if c = '"' then some '"'
  else if c = '\\' then some '\\'
  else if c = '/' then some '/'
  else if c = 'b' then some (Char.ofNat 8)
  else if c = 'f' then some (Char.ofNat 12)
  else if c = 'n' then some '\n'
  else if c = 'r' then some '\r'
  else if c = 't' then some '\t'
  else none

/-- Parse the body of a JSON string after the opening quote; returns the
decoded characters and the remainder after the closing quote. -/
def parseStringBody : Nat → List Char → Option (List Char × List Char)
  | 0, _ => none
  | _ + 1, [] => none
  | fuel + 1, c :: cs =>
    if c = '"' then some ([], cs)
    else if c = '\\' then
      match cs with
      | [] => none
      | e :: cs1 =>
        if e = 'u' then
          match cs1 with
          | h1 :: h2 :: h3 :: h4 :: cs2 =>
            match parseHexDigit h1, parseHexDigit h2, parseHexDigit h3, parseHexDigit h4 with
            | some a, some b, some c3, some d =>
              match parseStringBody fuel cs2 with
              | some (body, rest) =>
                some (Char.ofNat (a * 4096 + b * 256 + c3 * 16 + d) :: body, rest)
              | none => none
            | _, _, _, _ => none
          | _ => none
        else
          match unescapeChar e with
          | some ch =>
            match parseStringBody fuel cs1 with
            | some (body, rest) => some (ch :: body, rest)
            | none => none
          | none => none
    else
      match parseStringBody fuel cs with
      | some (body, rest) => some (c :: body, rest)
      | none => none

def isDigit (c : Char) : Bool := '0' ≤ c && c ≤ '9'

/-- Parse a JSON number token (sign, integer part, optional fraction,
optional exponent), returning the raw token characters and the rest. -/
def parseNumberToken (cs : List Char) : Option (List Char × List Char) :=
  let (sign, cs1) :=
    match cs with
    | '-' :: rest => (['-'], rest)
    | _ => (([] : List Char), cs)
  let intPart := cs1.takeWhile isDigit
  let cs2 := cs1.dropWhile isDigit
  if intPart = [] then none
  else
    let (frac, cs3) :=
      match cs2 with
      | '.' :: rest =>
        let ds := rest.takeWhile isDigit
        if ds = [] then (([] : List Char), cs2)
        else ('.' :: ds, rest.dropWhile isDigit)
      | _ => (([] : List Char), cs2)
    let (expo, cs4) :=
      match cs3 with
      | c :: rest =>
        if c = 'e' || c = 'E' then
          let (es, rest1) :=
            match rest with
            | s :: r2 => if s = '+' || s = '-' then ([s], r2) else (([] : List Char), rest)
            | [] => (([] : List Char), rest)
          let ds := rest1.takeWhile isDigit
          if ds = [] then (([] : List Char), cs3)
          else (c :: (es ++ ds), rest1.dropWhile isDigit)
        else (([] : List Char), cs3)
      | [] => (([] : List Char), cs3)
    some (sign ++ intPart ++ frac ++ expo, cs4)

/-- Check that `lit` is a prefix of `cs`; return the remainder. -/
def expectLit : List Char → List Char → Option (List Char)
  | [], cs => some cs
  | _ :: _, [] => none
  | l :: ls, c :: cs => if l = c then expectLit ls cs else none

mutual

/-- Recursive-descent JSON value parser (fuel-indexed; the fuel only bounds
recursion depth and is always supplied larger than the input length). -/
def parseValue : Nat → List Char → Option (Json × List Char)
  | 0, _ => none
  | fuel + 1, cs =>
    match cs.dropWhile isJsWs with
    | [] => none
    | c :: rest =>
      if c = '"' then
        match parseStringBody (fuel + 1) rest with
        | some (body, r1) => some (Json.str (String.mk body), r1)
        | none => none
      else if c = '\x7b' then
        match rest.dropWhile isJsWs with
        | '\x7d' :: r1 => some (Json.obj [], r1)
        | _ =>
          match parseMembers fuel rest with
          | some (ms, r1) => some (Json.obj ms, r1)
          | none => none
      else if c = '[' then
        match rest.dropWhile isJsWs with
        | ']' :: r1 => some (Json.arr [], r1)
        | _ =>
          match parseElements fuel rest with
          | some (vs, r1) => some (Json.arr vs, r1)
          | none => none
      else if c = 't' then
        match expectLit ['r', 'u', 'e'] rest with
        | some r1 => some (Json.bool true, r1)
        | none => none
      else if c = 'f' then
        match expectLit ['a', 'l', 's', 'e'] rest with
        | some r1 => some (Json.bool false, r1)
        | none => none
      else if c = 'n' then
        match expectLit ['u', 'l', 'l'] rest with
        | some r1 => some (Json.null, r1)
        | none => none
      else
        match parseNumberToken (c :: rest) with
        | some (tok, r1) => some (Json.num (String.mk tok), r1)
        | none => none

/-- Parse one-or-more comma-separated array elements up to `]`. -/
def parseElements : Nat → List Char → Option (List Json × List Char)
  | 0, _ => none
  | fuel + 1, cs =>
    match parseValue fuel cs with
    | some (v, r1) =>
      match r1.dropWhile isJsWs with
      | ',' :: r2 =>
        match parseElements fuel r2 with
        | some (vs, r3) => some (v :: vs, r3)
        | none => none
      | ']' :: r2 => some ([v], r2)
      | _ => none
    | none => none

/-- Parse one-or-more comma-separated object members up to the closing
brace. -/
def parseMembers : Nat → List Char → Option (List (String × Json) × List Char)
  | 0, _ => none
  | fuel + 1, cs =>
    match cs.dropWhile isJsWs with
    | '"' :: rest =>
      match parseStringBody fuel rest with
      | some (key, r1) =>
        match r1.dropWhile isJsWs with
        | ':' :: r2 =>
          match parseValue fuel r2 with
          | some (v, r3) =>
            match r3.dropWhile isJsWs with
            | ',' :: r4 =>
              match parseMembers fuel r4 with
              | some (ms, r5) => some ((String.mk key, v) :: ms, r5)
              | none => none
            | '\x7d' :: r4 => some ([(String.mk key, v)], r4)
            | _ => none
          | none => none
        | _ => none
      | none => none
    | _ => none

end

/-- Model of the JavaScript built-in `JSON.parse`: `none` models a thrown
`SyntaxError`. -/
def JSONparse (s : String) : Option Json :=
  match parseValue (s.length + 1) s.data with
  | some (v, rest) => if rest.dropWhile isJsWs = [] then some v else none
  | none => none

/-- JSON string-escaping of one character, as done by `JSON.stringify`
(the `\uXXXX` escaping of other control characters is elided; no value in
this development contains them). -/
def escChar (c : Char) : List Char :=
  if c = '"' then ['\\', '"']
  else if c = '\\' then ['\\', '\\']
  else if c = '\n' then ['\\', 'n']
  else if c = '\r' then ['\\', 'r']
  else if c = '\t' then ['\\', 't']
  else [c]

/-- Interpose `sep` between the lists in `xs` and concatenate. -/
def joinSep (sep : List Char) : List (List Char) → List Char
  | [] => []
  | [x] => x
  | x :: y :: rest => x ++ sep ++ joinSep sep (y :: rest)

mutual

/-- Model of the JavaScript built-in `JSON.stringify` (producing the
character list of the output). -/
def stringifyChars : Json → List Char
  | Json.null => ['n', 'u', 'l', 'l']
  | Json.bool true => ['t', 'r', 'u', 'e']
  | Json.bool false => ['f', 'a', 'l', 's', 'e']
  | Json.num tok => tok.data
  | Json.str s => '"' :: (s.data.map escChar).flatten ++ ['"']
  | Json.arr elems => '[' :: joinSep [','] (stringifyList elems) ++ [']']
  | Json.obj members => '\x7b' :: joinSep [','] (stringifyMembers members) ++ ['\x7d']

def stringifyList : List Json → List (List Char)
  | [] => []
  | v :: vs => stringifyChars v :: stringifyList vs

def stringifyMembers : List (String × Json) → List (List Char)
  | [] => []
  | (k, v) :: ms =>
    ('"' :: (k.data.map escChar).flatten ++ ['"', ':'] ++ stringifyChars v) ::
      stringifyMembers ms

end

def stringify (v : Json) : String := String.mk (stringifyChars v)

/-!
 ### JavaScript dynamic-semantics helpers

`research-v3.ts` walks the parsed JSON with untyped property accesses and
`||`-defaulting.  The helpers below model exactly the fragments it uses:
truthiness, string coercion, property access (a `TypeError` on `null` is
modelled as `Except.error`, and `undefined` is conflated with `Json.null` —
both are falsy, both throw on further property access, and `JSON.parse`
never produces `undefined`).
-/

/-- Is the raw numeric token a representation of zero (`0`, `-0`, `0.0`,
`0e5`, ...)?  The mantissa digits are all `0` exactly when the JS number is
`0`, since the token follows the JSON number grammar. -/
def jsNumIsZero (tok : String) : Bool :=
  (tok.data.takeWhile fun c => c ≠ 'e' && c ≠ 'E').all fun c => !(isDigit c) || c = '0'

/-- JavaScript truthiness of a parsed JSON value. -/
def jsTruthy : Json → Bool
  | Json.null => false
  | Json.bool b => b
  | Json.num tok => !(jsNumIsZero tok)
  | Json.str s => s ≠ ""
  | Json.arr _ => true
  | Json.obj _ => true

mutual

/-- JavaScript `String(v)` coercion of a parsed JSON value (`Array.prototype.toString`
joins elements with commas, rendering `null` elements as the empty string;
objects render as `[object Object]`). -/
def jsToString : Json → String
  | Json.null => "null"
  | Json.bool true => "true"
  | Json.bool false => "false"
  | Json.num tok => tok
  | Json.str s => s
  | Json.arr elems => String.intercalate "," (jsToStringElems elems)
  | Json.obj _ => "[object Object]"

def jsToStringElems : List Json → List String
  | [] => []
  | Json.null :: vs => "" :: jsToStringElems vs
  | v :: vs => jsToString v :: jsToStringElems vs

end

/-- Object-member lookup: JS object literals built by `JSON.parse` keep the
last occurrence of a duplicated key. -/
def jsLookup (members : List (String × Json)) (key : String) : Option Json :=
  (members.filter fun m => m.1 = key).getLast?.map (·.2)

/-- Model of the JS property access `v.key`: a `TypeError` (modelled as
`Except.error ()`) when the receiver is `null`/`undefined`; `undefined`
(modelled as `Json.null`) when the receiver is a primitive or the key is
absent. -/
def jsGetField (v : Json) (key : String) : Except Unit Json :=
  match v with
  | Json.null => Except.error ()
  | Json.obj members =>
    match jsLookup members key with
    | some w => Except.ok w
    | none => Except.ok Json.null
  | _ => Except.ok Json.null

/-- Model of `text.match(re)` for the regexes `/\{[\s\S]*\}/` and
`/\[[\s\S]*\]/`: the (greedy, leftmost) match runs from the first `o` to
the last `c`, and exists iff some `c` occurs after some `o`. -/
def matchSpan (o c : Char) (cs : List Char) : Option (List Char) :=
  match cs.dropWhile fun x => x ≠ o with
  | [] => none
  | a :: rest =>
    match ((a :: rest).reverse.dropWhile fun x => x ≠ c) with
    | [] => none
    | r => some r.reverse

/-!
 ### Data model (`src/lib/research/logic-chain-types.ts`,
`src/lib/research/workflow-types.ts`, `src/lib/ai/types.ts`)

`TokenUsage` in the source also carries a float `cost` and a `model` tag;
both are omitted here: `cost` is floating point and neither field is read
by any of the verified code paths (only `inputTokens`/`outputTokens` flow
into `totalTokens`).
-/

structure TokenUsage where
  inputTokens : Nat
  outputTokens : Nat
deriving Repr, DecidableEq

def TokenUsage.add (a b : TokenUsage) : TokenUsage :=
  ⟨a.inputTokens + b.inputTokens, a.outputTokens + b.outputTokens⟩

def zeroUsage : TokenUsage := ⟨0, 0⟩

structure ResearchNode where
  id : String
  step_name : String
  intent : String
  questions : List String
  findings : List String
  reasoning : String
  next_logic_step : Option String
deriving Repr, DecidableEq

structure TopicChain where
  topic : String
  chain : List ResearchNode
deriving Repr, DecidableEq

structure ResearchInvestigation where
  ticker : String
  topicChains : List TopicChain
  totalNodes : Nat
  completedNodes : Nat
deriving Repr, DecidableEq

/-- An entry of `searchWeb`'s `results` array (`content` is optional in the
provider's payload: the source filters on its truthiness). -/
structure RawSearchResult where
  title : String
  content : Option String
  link : String
deriving Repr, DecidableEq

/-- The `{title, content, link}` records aggregated by `executeNode`. -/
structure SourceDoc where
  title : String
  content : String
  link : String
deriving Repr, DecidableEq

structure NodeExecutionResult where
  nodeId : String
  success : Bool
  findings : List String
  reasoning : String
  searchResults : List SourceDoc
deriving Repr, DecidableEq

structure CompetitorEntry where
  name : String
  market_cap : Option String
  core_difference : String
  resource_quality : Option String
deriving Repr, DecidableEq

structure FinancialReality where
  cash_burn_rate : Option String
  capex_cycle : Option String
  revenue_trend : Option String
deriving Repr, DecidableEq

structure DeepDiveReport where
  narrative_arc : String
  competitor_matrix : List CompetitorEntry
  financial_reality : FinancialReality
  marginal_changes : String
  verdict : String
deriving Repr, DecidableEq

inductive StreamLogType where
  | strategist_plan
  | mission_start
  | search_query
  | search_results
  | analysis_progress
  | final_report
deriving Repr, DecidableEq

/-- The `data` payloads attached at the collector call sites, one
constructor per object-literal shape in the source (the `error: true` flag
of a failed search gets its own constructor, `searchError`). -/
inductive LogData where
  | none
  | planSummary (chains : List (String × Nat))
  | nodeStart (nodeId intent : String)
  | searchQuery (nodeId question : String)
  | searchResults (nodeId question : String) (resultCount : Nat)
  | searchError (nodeId question : String)
  | nodeProgress (nodeId : String)
  | chainStart (topic : String) (steps : Nat)
  | nodeCompleted (nodeId : String) (findingsCount : Nat) (reasoningHead : String)
  | reportPayload (report : DeepDiveReport)
  | reportSaved (reportId : String)
deriving Repr, DecidableEq

/-- One `StreamLog` event (the wall-clock `timestamp: Date` field is
omitted: real time is outside the model and no verified property reads
it). -/
structure StreamLog where
  type : StreamLogType
  message : String
  data : LogData
deriving Repr, DecidableEq

inductive Language where
  | en
  | cn
deriving Repr, DecidableEq

structure MarketQuote where
  price : Int
  change : Int
  changePercent : Int
  marketCap : Option Int
deriving Repr, DecidableEq

/-!
 ### External capabilities

Generation (`generateTextWithModel`), web search (`searchWeb`), the market
quote (`adapter.getQuote`) and persistence (`saveReport`) are external
clients; each is a function returning `Except String`, with `.error`
modelling a rejected promise.  A generation call is identified by its call
site together with the semantic inputs that the call's prompt is built
from (prompt wording itself is opaque text fed to the external client). -/

structure GenResponse where
  text : String
  usage : TokenUsage
deriving Repr, DecidableEq

inductive GenRequest where
  | planning (ticker : String) (lang : Language)
  | extractFacts (ticker intent : String) (docs : List SourceDoc) (lang : Language)
  | reasoning (ticker intent : String) (findings : List String) (lang : Language)
  | synthesis (ticker : String) (chains : List TopicChain) (quote : MarketQuote) (lang : Language)
deriving Repr, DecidableEq

structure SavedReport where
  id : String
deriving Repr, DecidableEq

structure SaveArgs where
  ticker : String
  language : Language
  report : DeepDiveReport
  investigation : ResearchInvestigation
  totalTokens : Nat
deriving Repr, DecidableEq

structure Caps where
  generate : GenRequest → Except String GenResponse
  search : String → Nat → Except String (List RawSearchResult)
  getQuote : String → Except String MarketQuote
  saveReport : SaveArgs → Except String SavedReport

/-!
 ### Stage 1 — `generateTopicChains` (research-v3.ts lines 52-163)
-/

/-- The hard-coded fallback plan in the planner's `catch` block. -/
def fallbackChains (ticker : String) : List TopicChain :=
  [{ topic := "Competitive Analysis",
     chain := [{
       id := "comp-1",
       step_name := "Step 1: Identify Competitors",
       intent := "Identify direct competitors to understand market positioning",
       questions := [ticker ++ " competitors", ticker ++ " market share"],
       findings := [],
       reasoning := "",
       next_logic_step := some "Compare competitive advantages" }] }]

/-- `x || dflt` on a field value, coercing a truthy value to `String`. -/
def jsFieldOr (v : Json) (dflt : String) : String :=
  if jsTruthy v then jsToString v else dflt

/-- The `questions: nodeData.questions || []` field: a falsy value becomes
`[]`, an array keeps its elements (string-coerced).  A truthy non-array
would be stored as-is by JS and crash later in `executeNode`; it is
modelled as a planning-time `TypeError` (no verified property depends on
that pathological shape). -/
def questionsField (qs : Json) : Except Unit (List String) :=
  match qs with
  | Json.arr xs => Except.ok (xs.map jsToString)
  | v => if jsTruthy v then Except.error () else Except.ok ([] : List String)

/-- The node-mapping lambda of the planner, indexed like
`topicData.chain.map((nodeData, nodeIndex) => ...)`.  `Except.error ()`
models a `TypeError` thrown inside the planner's `try` (property access on
`null`). -/
def mapNodes (topicIndex : Nat) : Nat → List Json → Except Unit (List ResearchNode)
  | _, [] => Except.ok []
  | nodeIndex, nd :: rest =>
    match jsGetField nd "step_name" with
    | Except.error e => Except.error e
    | Except.ok sn =>
      match jsGetField nd "intent" with
      | Except.error e => Except.error e
      | Except.ok it =>
        match jsGetField nd "questions" with
        | Except.error e => Except.error e
        | Except.ok qs =>
          match jsGetField nd "next_logic_step" with
          | Except.error e => Except.error e
          | Except.ok nl =>
            match questionsField qs with
            | Except.error e => Except.error e
            | Except.ok questions =>
              match mapNodes topicIndex (nodeIndex + 1) rest with
              | Except.error e => Except.error e
              | Except.ok rest1 =>
                Except.ok
                  ({ id := "topic-" ++ toString (topicIndex + 1) ++ "-node-" ++
                       toString (nodeIndex + 1),
                     step_name := jsFieldOr sn ("Step " ++ toString (nodeIndex + 1)),
                     intent := jsFieldOr it "",
                     questions := questions,
                     findings := [],
                     reasoning := "",
                     next_logic_step :=
                       if jsTruthy nl then some (jsToString nl) else none } :: rest1)

/-- The `(topicData.chain || []).map(...)` expression: a falsy `chain`
field maps over `[]`, an array maps the nodes, and a truthy non-array
throws (`.map` is not a function). -/
def chainField (topicIndex : Nat) (ch : Json) : Except Unit (List ResearchNode) :=
  match ch with
  | Json.arr xs => mapNodes topicIndex 0 xs
  | v => if jsTruthy v then Except.error () else Except.ok ([] : List ResearchNode)

/-- The topic-mapping lambda of the planner
(`parsed.topics.map((topicData, topicIndex) => ...)`). -/
def mapTopics : Nat → List Json → Except Unit (List TopicChain)
  | _, [] => Except.ok []
  | topicIndex, td :: rest =>
    match jsGetField td "topic" with
    | Except.error e => Except.error e
    | Except.ok t =>
      match jsGetField td "chain" with
      | Except.error e => Except.error e
      | Except.ok ch =>
        match chainField topicIndex ch with
        | Except.error e => Except.error e
        | Except.ok chainNodes =>
          match mapTopics (topicIndex + 1) rest with
          | Except.error e => Except.error e
          | Except.ok rest1 =>
            Except.ok
              ({ topic := jsFieldOr t ("Topic " ++ toString (topicIndex + 1)),
                 chain := chainNodes } :: rest1)

/-- The planner's parsing of the generation output (the `try`/`catch` over
`response.text`): `chains` stays `[]` unless the regex finds a span, the
span parses, and `parsed.topics` is an array; the fallback plan is used
exactly when something inside the `try` throws. -/
def chainsFromResponse (ticker text : String) : List TopicChain :=
  match matchSpan '\x7b' '\x7d' text.data with
  | none => []
  | some span =>
    match JSONparse (String.mk span) with
    | none => fallbackChains ticker
    | some parsed =>
      match jsGetField parsed "topics" with
      | Except.error _ => fallbackChains ticker
      | Except.ok t =>
        match t with
        | Json.arr topics =>
          match mapTopics 0 topics with
          | Except.ok cs => cs
          | Except.error _ => fallbackChains ticker
        | _ => []

def planStartLog (ticker : String) (lang : Language) : StreamLog :=
  { type := StreamLogType.strategist_plan,
    message := match lang with
      | Language.cn => "正在为 " ++ ticker ++ " 生成逻辑调查链..."
      | Language.en => "Generating logical investigation chains for " ++ ticker ++ "...",
    data := LogData.none }

def planDoneLog (chains : List TopicChain) : StreamLog :=
  { type := StreamLogType.strategist_plan,
    message := "Generated " ++ toString chains.length ++ " topic chains with " ++
      toString (chains.foldl (fun sum c => sum + c.chain.length) 0) ++
      " total investigation steps",
    data := LogData.planSummary (chains.map fun c => (c.topic, c.chain.length)) }

/-- Stage 1.  The first component is the returned value (`.error` = the
planning generation call rejected, which is *not* caught here and
propagates to the orchestrator); the second is the list of collector
events emitted, which exist even when the call rejects. -/
def generateTopicChains (caps : Caps) (ticker : String) (lang : Language) :
    Except String (List TopicChain × TokenUsage) × List StreamLog :=
  match caps.generate (GenRequest.planning ticker lang) with
  | Except.error e => (Except.error e, [planStartLog ticker lang])
  | Except.ok resp =>
    let chains := chainsFromResponse ticker resp.text
    (Except.ok (chains, resp.usage), [planStartLog ticker lang, planDoneLog chains])

/-!
 ### `executeNode` (research-v3.ts lines 169-349)

The per-question searches are dispatched concurrently; `Promise.all`
returns their results in question order, which is also the order used for
the deterministic serialization of their log events (the real interleaving
of the two logs of different questions is scheduler-dependent; every
verified property about these logs is interleaving-invariant).
`executeNode` catches every capability failure, so its embedding is a
total function — the source function never rejects.
-/

def nodeStartLog (lang : Language) (node : ResearchNode) : StreamLog :=
  { type := StreamLogType.mission_start,
    message := match lang with
      | Language.cn => "执行: " ++ node.step_name
      | Language.en => "Executing: " ++ node.step_name,
    data := LogData.nodeStart node.id node.intent }

def searchQueryLog (nodeId q : String) : StreamLog :=
  { type := StreamLogType.search_query,
    message := "Searching: " ++ q,
    data := LogData.searchQuery nodeId q }

def searchFoundLog (nodeId q : String) (count : Nat) : StreamLog :=
  { type := StreamLogType.search_results,
    message := "Found " ++ toString count ++ " results",
    data := LogData.searchResults nodeId q count }

/-- The error-flagged `search_results` event of a caught search failure
(`data: { nodeId, question, error: true }`). -/
def searchFailLog (nodeId q : String) : StreamLog :=
  { type := StreamLogType.search_results,
    message := "Search failed: " ++ q,
    data := LogData.searchError nodeId q }

/-- The body of one per-question search task (the lambda passed to
`limit` inside `executeNode`): the filtered and re-mapped docs, plus the
two events it emits.  A rejected `searchWeb` is caught: it contributes no
docs and logs an error-flagged `search_results` event. -/
def searchOne (caps : Caps) (nodeId q : String) : List SourceDoc × List StreamLog :=
  match caps.search q 5 with
  | Except.ok results =>
    let docs := results.filterMap fun r =>
      match r.content with
      | some c =>
        if c = "" then none
        else some { title := r.title, content := c, link := r.link : SourceDoc }
      | none => none
    (docs, [searchQueryLog nodeId q, searchFoundLog nodeId q results.length])
  | Except.error _ =>
    ([], [searchQueryLog nodeId q, searchFailLog nodeId q])

/-- `allSearchResults`: the aggregation over all questions. -/
def nodeDocs (caps : Caps) (node : ResearchNode) : List SourceDoc :=
  (node.questions.map fun q => (searchOne caps node.id q).1).flatten

def nodeSearchLogs (caps : Caps) (node : ResearchNode) : List StreamLog :=
  (node.questions.map fun q => (searchOne caps node.id q).2).flatten

/-- The fact-extraction parse (`/\[[\s\S]*\]/` then `JSON.parse` then
`Array.isArray`): any failure yields zero findings.  Array elements are
pushed as-is by the source and consumed as strings downstream; non-string
elements are modelled by their JS string coercion. -/
def parseFindings (text : String) : List String :=
  match matchSpan '[' ']' text.data with
  | none => []
  | some span =>
    match JSONparse (String.mk span) with
    | some (Json.arr xs) => xs.map jsToString
    | _ => []

def extractingLog (lang : Language) (node : ResearchNode) (docCount : Nat) : StreamLog :=
  { type := StreamLogType.analysis_progress,
    message := match lang with
      | Language.cn => "正在从 " ++ toString docCount ++ " 个搜索结果中提取事实..."
      | Language.en => "Extracting facts from " ++ toString docCount ++ " search results...",
    data := LogData.nodeProgress node.id }

/-- The fact-extraction stage: performed only when some docs were
aggregated.  Returns the findings plus the usage of the extraction call
(`none` when the call rejected — the `catch` leaves both usage and
findings untouched; a successful call whose text fails to parse still
counts its usage, which is recorded before parsing). -/
def extractOutcome (caps : Caps) (ticker : String) (lang : Language)
    (node : ResearchNode) : List String × Option TokenUsage :=
  let docs := nodeDocs caps node
  if 0 < docs.length then
    match caps.generate (GenRequest.extractFacts ticker node.intent docs lang) with
    | Except.ok resp => (parseFindings resp.text, some resp.usage)
    | Except.error _ => ([], none)
  else ([], none)

/-- The deterministic fallback reasoning used when the reasoning call
rejects. -/
def fallbackReasoning (lang : Language) (n : Nat) (intent : String) : String :=
  match lang with
  | Language.cn => "找到 " ++ toString n ++ " 个与 " ++ intent ++ " 相关的事实"
  | Language.en => "Found " ++ toString n ++ " facts related to " ++ intent

/-- The reasoning stage: performed only when findings exist. -/
def reasoningOutcome (caps : Caps) (ticker : String) (lang : Language)
    (node : ResearchNode) (findings : List String) : String × Option TokenUsage :=
  if 0 < findings.length then
    match caps.generate (GenRequest.reasoning ticker node.intent findings lang) with
    | Except.ok resp => (resp.text.trim, some resp.usage)
    | Except.error _ => (fallbackReasoning lang findings.length node.intent, none)
  else ("", none)

structure NodeOutcome where
  result : NodeExecutionResult
  usage : TokenUsage
  logs : List StreamLog
  genCalls : List TokenUsage
deriving Repr, DecidableEq

/-- `executeNode`.  `usage` mirrors the two guarded `totalUsage.xxx += ...`
sites; `genCalls` records the usage of each successful generation call in
dispatch order (a rejected call has no observable usage). -/
def executeNode (caps : Caps) (ticker : String) (lang : Language)
    (node : ResearchNode) : NodeOutcome :=
  let docs := nodeDocs caps node
  let ext := extractOutcome caps ticker lang node
  let rea := reasoningOutcome caps ticker lang node ext.1
  { result :=
      { nodeId := node.id,
        success := 0 < ext.1.length,
        findings := ext.1,
        reasoning := rea.1,
        searchResults := docs },
    usage := (zeroUsage.add (ext.2.getD zeroUsage)).add (rea.2.getD zeroUsage),
    logs := nodeStartLog lang node :: nodeSearchLogs caps node ++
      (if 0 < docs.length then [extractingLog lang node docs.length] else []),
    genCalls := ext.2.toList ++ rea.2.toList }

/-!
 ### `executeTopicChain` (research-v3.ts lines 354-420)

The `for (const node of chain.chain)` loop awaits each node before
starting the next, so the loop is a sequential fold; each iteration
appends the node's events followed by its completion event, and pushes a
fresh node record `{...node, findings, reasoning}` onto `updatedChain`.
-/

def chainStartLog (lang : Language) (chain : TopicChain) : StreamLog :=
  { type := StreamLogType.mission_start,
    message := match lang with
      | Language.cn => "开始主题链: " ++ chain.topic
      | Language.en => "Starting topic chain: " ++ chain.topic,
    data := LogData.chainStart chain.topic chain.chain.length }

def nodeCompletedLog (lang : Language) (node : ResearchNode)
    (result : NodeExecutionResult) : StreamLog :=
  { type := StreamLogType.analysis_progress,
    message := match lang with
      | Language.cn => "完成 " ++ node.step_name ++ ": 找到 " ++
          toString result.findings.length ++ " 个事实"
      | Language.en => "Completed " ++ node.step_name ++ ": Found " ++
          toString result.findings.length ++ " facts",
    data := LogData.nodeCompleted node.id result.findings.length (result.reasoning.take 100) }

/-- The updated node pushed by one loop iteration:
`{...node, findings: result.findings, reasoning: result.reasoning}`. -/
def updatedNode (caps : Caps) (ticker : String) (lang : Language)
    (node : ResearchNode) : ResearchNode :=
  { node with
    findings := (executeNode caps ticker lang node).result.findings,
    reasoning := (executeNode caps ticker lang node).result.reasoning }

/-- The events of one loop iteration. -/
def nodeBlock (caps : Caps) (ticker : String) (lang : Language)
    (node : ResearchNode) : List StreamLog :=
  (executeNode caps ticker lang node).logs ++
    [nodeCompletedLog lang node (executeNode caps ticker lang node).result]

structure ChainOutcome where
  updatedChain : TopicChain
  usage : TokenUsage
  logs : List StreamLog
  genCalls : List TokenUsage
deriving Repr, DecidableEq

def executeTopicChain (caps : Caps) (ticker : String) (lang : Language)
    (chain : TopicChain) : ChainOutcome :=
  { updatedChain :=
      { topic := chain.topic,
        chain := chain.chain.map (updatedNode caps ticker lang) },
    usage := chain.chain.foldl
      (fun acc node => acc.add (executeNode caps ticker lang node).usage) zeroUsage,
    logs := chainStartLog lang chain ::
      (chain.chain.map (nodeBlock caps ticker lang)).flatten,
    genCalls := (chain.chain.map fun node =>
      (executeNode caps ticker lang node).genCalls).flatten }

/-!
 ### `synthesizeReport` (research-v3.ts lines 425-539)

Validation of the parsed span is `DeepDiveReportSchema.parse` (zod):
required string fields, `competitor_matrix` an array of records with
optional string members, `financial_reality` an object of optional
strings. Zod strips unknown keys and rejects `null` for `.optional()`
fields.
-/

def zodReqStr (members : List (String × Json)) (key : String) : Option String :=
  match jsLookup members key with
  | some (Json.str s) => some s
  | _ => none

def zodOptStr (members : List (String × Json)) (key : String) : Option (Option String) :=
  match jsLookup members key with
  | none => some none
  | some (Json.str s) => some (some s)
  | some _ => none

def zodCompetitor (v : Json) : Option CompetitorEntry :=
  match v with
  | Json.obj ms => do
    let name ← zodReqStr ms "name"
    let mc ← zodOptStr ms "market_cap"
    let cd ← zodReqStr ms "core_difference"
    let rq ← zodOptStr ms "resource_quality"
    some { name := name, market_cap := mc, core_difference := cd, resource_quality := rq }
  | _ => none

def zodFinancialReality (v : Json) : Option FinancialReality :=
  match v with
  | Json.obj ms => do
    let cb ← zodOptStr ms "cash_burn_rate"
    let cc ← zodOptStr ms "capex_cycle"
    let rt ← zodOptStr ms "revenue_trend"
    some { cash_burn_rate := cb, capex_cycle := cc, revenue_trend := rt }
  | _ => none

/-- `DeepDiveReportSchema.parse`; `none` models a thrown `ZodError`. -/
def zodParseReport (v : Json) : Option DeepDiveReport :=
  match v with
  | Json.obj ms => do
    let na ← zodReqStr ms "narrative_arc"
    let cm ←
      match jsLookup ms "competitor_matrix" with
      | some (Json.arr xs) => xs.mapM zodCompetitor
      | _ => none
    let fr ←
      match jsLookup ms "financial_reality" with
      | some w => zodFinancialReality w
      | none => none
    let mc ← zodReqStr ms "marginal_changes"
    let vd ← zodReqStr ms "verdict"
    some { narrative_arc := na, competitor_matrix := cm, financial_reality := fr,
           marginal_changes := mc, verdict := vd }
  | _ => none

/-- The deterministic fallback report of the synthesizer's `catch`. -/
def fallbackReport (ticker : String) (factCount chainCount : Nat) : DeepDiveReport :=
  { narrative_arc := "Analysis for " ++ ticker ++ " based on " ++
      toString factCount ++ " facts found.",
    competitor_matrix := [],
    financial_reality :=
      { cash_burn_rate := some "", capex_cycle := some "", revenue_trend := some "" },
    marginal_changes := "",
    verdict := "Analysis for " ++ ticker ++ ": Found " ++ toString factCount ++
      " facts across " ++ toString chainCount ++ " research topics." }

/-- The synthesizer's `try`/`catch` over the generation text: a missing
span (`throw new Error("No JSON found in response")`), a `JSON.parse`
failure, or a schema failure all land in the `catch`. -/
def reportFromText (ticker text : String) (factCount chainCount : Nat) : DeepDiveReport :=
  match matchSpan '\x7b' '\x7d' text.data with
  | none => fallbackReport ticker factCount chainCount
  | some span =>
    match JSONparse (String.mk span) with
    | none => fallbackReport ticker factCount chainCount
    | some parsed =>
      match zodParseReport parsed with
      | some r => r
      | none => fallbackReport ticker factCount chainCount

def synthStartLog (lang : Language) : StreamLog :=
  { type := StreamLogType.analysis_progress,
    message := match lang with
      | Language.cn => "正在将所有发现综合成综合报告..."
      | Language.en => "Synthesizing all findings into comprehensive report...",
    data := LogData.none }

def finalReportLog (r : DeepDiveReport) : StreamLog :=
  { type := StreamLogType.final_report,
    message := "Report synthesis complete",
    data := LogData.reportPayload r }

/-- `allFindings` as compiled by the synthesizer. -/
def aggregatedFindings (chains : List TopicChain) : List String :=
  chains.flatMap fun chain => chain.chain.flatMap fun node => node.findings

/-- Stage 3.  As with planning, the generation call itself is *not* inside
the `try`: its rejection propagates (first component `.error`), while the
start event has already been emitted (second component). -/
def synthesizeReport (caps : Caps) (ticker : String) (lang : Language)
    (chains : List TopicChain) (quote : MarketQuote) :
    Except String (DeepDiveReport × TokenUsage) × List StreamLog :=
  match caps.generate (GenRequest.synthesis ticker chains quote lang) with
  | Except.error e => (Except.error e, [synthStartLog lang])
  | Except.ok resp =>
    let report := reportFromText ticker resp.text
      (aggregatedFindings chains).length chains.length
    (Except.ok (report, resp.usage),
      [synthStartLog lang, finalReportLog report])

/-!
 ### `runDeepResearchV3` (research-v3.ts lines 562-751)

The orchestrator state machine.  The final state is the snapshot handed to
`stream.done`.  Chain execution runs under a chain limiter of 2;
`Promise.all` returns `chainResults` in plan order, and the state's
`completedChains` receives chains in completion order — scheduler-
dependent; the embedding serializes in plan order (no verified property
depends on cross-chain ordering).  `genCalls` is the run-wide dispatch-
order record of every successful generation call's usage.
-/

inductive RunStatus where
  | initializing
  | planning
  | researching
  | completed
  | error
deriving Repr, DecidableEq

structure ResearchState where
  status : RunStatus
  plan : Option (List TopicChain)
  completedChains : List TopicChain
  logs : List StreamLog
  report : Option DeepDiveReport
  error : Option String
  totalTokens : Option Nat
  reportId : Option String
  investigation : Option ResearchInvestigation
deriving Repr, DecidableEq

structure RunOutcome where
  finalState : ResearchState
  genCalls : List TokenUsage
deriving Repr, DecidableEq

def runStartLog (ticker : String) (lang : Language) : StreamLog :=
  { type := StreamLogType.strategist_plan,
    message := match lang with
      | Language.cn => "正在启动 " ++ ticker ++ " 的逻辑链深度研究..."
      | Language.en => "Starting deep research with logical chains for " ++ ticker ++ "...",
    data := LogData.none }

def runErrorLog (lang : Language) (msg : String) : StreamLog :=
  { type := StreamLogType.analysis_progress,
    message := match lang with
      | Language.cn => "错误: " ++ msg
      | Language.en => "Error: " ++ msg,
    data := LogData.none }

def savingLog (lang : Language) : StreamLog :=
  { type := StreamLogType.analysis_progress,
    message := match lang with
      | Language.cn => "正在将报告保存到数据库..."
      | Language.en => "Saving report to database...",
    data := LogData.none }

def savedLog (lang : Language) (id : String) : StreamLog :=
  { type := StreamLogType.final_report,
    message := match lang with
      | Language.cn => "报告已保存，ID: " ++ id
      | Language.en => "Report saved with ID: " ++ id,
    data := LogData.reportSaved id }

def saveFailedLog (lang : Language) (msg : String) : StreamLog :=
  { type := StreamLogType.analysis_progress,
    message := match lang with
      | Language.cn => "警告: 保存报告到数据库失败: " ++ msg
      | Language.en => "Warning: Failed to save report to database: " ++ msg,
    data := LogData.none }

/-- `totalNodes` as computed at lines 659-662. -/
def totalNodesOf (chains : List TopicChain) : Nat :=
  chains.foldl (fun sum chain => sum + chain.chain.length) 0

/-- `completedNodes` as computed at lines 663-667. -/
def completedNodesOf (chains : List TopicChain) : Nat :=
  chains.foldl
    (fun sum chain =>
      sum + (chain.chain.filter fun node => 0 < node.findings.length).length) 0

def runDeepResearchV3 (caps : Caps) (ticker : String) (lang : Language) : RunOutcome :=
  let logs0 := [runStartLog ticker lang]
  match generateTopicChains caps ticker lang with
  | (Except.error e, planLogs) =>
    { finalState :=
        { status := RunStatus.error, plan := none, completedChains := [],
          logs := logs0 ++ planLogs ++ [runErrorLog lang e],
          report := none, error := some e, totalTokens := none,
          reportId := none, investigation := none },
      genCalls := [] }
  | (Except.ok (chains, planUsage), planLogs) =>
    let logs1 := logs0 ++ planLogs
    match caps.getQuote ticker with
    | Except.error e =>
      { finalState :=
          { status := RunStatus.error, plan := some chains, completedChains := [],
            logs := logs1 ++ [runErrorLog lang e],
            report := none, error := some e, totalTokens := none,
            reportId := none, investigation := none },
        genCalls := [planUsage] }
    | Except.ok quote =>
      let chainOuts := chains.map (executeTopicChain caps ticker lang)
      let completedChains := chainOuts.map (fun c => c.updatedChain)
      let logs2 := logs1 ++ (chainOuts.map (fun c => c.logs)).flatten
      let usage2 := chainOuts.foldl (fun acc c => acc.add c.usage)
        (zeroUsage.add planUsage)
      let chainCalls := (chainOuts.map (fun c => c.genCalls)).flatten
      match synthesizeReport caps ticker lang completedChains quote with
      | (Except.error e, synthLogs) =>
        { finalState :=
            { status := RunStatus.error, plan := some chains,
              completedChains := completedChains,
              logs := logs2 ++ synthLogs ++ [runErrorLog lang e],
              report := none, error := some e, totalTokens := none,
              reportId := none, investigation := none },
          genCalls := planUsage :: chainCalls }
      | (Except.ok (report, synthUsage), synthLogs) =>
        let totalUsage := usage2.add synthUsage
        let investigation : ResearchInvestigation :=
          { ticker := ticker, topicChains := completedChains,
            totalNodes := totalNodesOf completedChains,
            completedNodes := completedNodesOf completedChains }
        let totalTokens := totalUsage.inputTokens + totalUsage.outputTokens
        let saved := caps.saveReport
          { ticker := ticker, language := lang, report := report,
            investigation := investigation, totalTokens := totalTokens }
        let reportId := match saved with
          | Except.ok s => some s.id
          | Except.error _ => none
        let saveLogs := match saved with
          | Except.ok s => [savingLog lang, savedLog lang s.id]
          | Except.error e => [savingLog lang, saveFailedLog lang e]
        { finalState :=
            { status := RunStatus.completed, plan := some chains,
              completedChains := completedChains,
              logs := logs2 ++ synthLogs ++ saveLogs,
              report := some report, error := none,
              totalTokens := some totalTokens, reportId := reportId,
              investigation := some investigation },
          genCalls := planUsage :: chainCalls ++ [synthUsage] }

/-!
 ### Stream protocol (`src/lib/ai/stream-helper.ts`)

`createStreamableValue` writes `JSON.stringify(value) + "\n"` for the
initial value and for every `update`/`done`; the whole written stream for
a snapshot sequence is modelled by `writtenStream`.  `readStreamableValue`
reads chunks, appends to a buffer, splits on `"\n"`, keeps the trailing
partial segment in the buffer (`buffer = lines.pop()`), parses every
non-blank complete line (a parse failure is logged and skipped), and
finally parses the non-blank leftover buffer.  Chunks are modelled
post-`TextDecoder`, i.e. as character lists (the decoder reassembles
code points split across chunk boundaries). -/

/-- `String.prototype.trim` (over the whitespace characters that occur in
this protocol). -/
def jsTrim (cs : List Char) : List Char :=
  ((cs.dropWhile isJsWs).reverse.dropWhile isJsWs).reverse

/-- `buffer.split("\n")` with the last (partial) segment separated out:
the first component is `lines` after `pop`, the second the new buffer. -/
def splitLines : List Char → List (List Char) × List Char
  | [] => ([], [])
  | c :: cs =>
    let p := splitLines cs
    if c = '\n' then ([] :: p.1, p.2)
    else
      match p.1 with
      | [] => ([], c :: p.2)
      | l :: ls => ((c :: l) :: ls, p.2)

/-- Processing of one line by the reader: blank lines are skipped, a
`JSON.parse` failure is caught and skipped, otherwise the value is
yielded.  The leftover buffer at end of stream gets the same treatment. -/
def parseLine (l : List Char) : Option Json :=
  if jsTrim l = [] then none else JSONparse (String.mk l)

/-- The reader loop of `readStreamableValue`: one iteration per chunk,
then the final-buffer step. -/
def readLoop : List (List Char) → List Char → List Json
  | [], buffer => (parseLine buffer).toList
  | chunk :: rest, buffer =>
    let p := splitLines (buffer ++ chunk)
    p.1.filterMap parseLine ++ readLoop rest p.2

/-- `readStreamableValue`, as a function of the chunk partition delivered
by the transport. -/
def readStreamableValue (chunks : List (List Char)) : List Json :=
  readLoop chunks []

/-- The full byte stream written by `createStreamableValue` for a snapshot
sequence (initial value, updates, done value): one JSON line each. -/
def writtenStream (snapshots : List Json) : List Char :=
  (snapshots.map fun v => stringifyChars v ++ ['\n']).flatten

/-!
 ## Concrete capability instances (used by witnesses and counterexamples)
-/

/-- A planner response that is prose with no JSON object span. -/
def capsPlanProse : Caps :=
  { generate := fun req =>
      match req with
      | GenRequest.planning _ _ =>
        Except.ok { text := "I cannot produce a plan.", usage := { inputTokens := 10, outputTokens := 5 } }
      | _ => Except.error "unused",
    search := fun _ _ => Except.error "unused",
    getQuote := fun _ => Except.error "unused",
    saveReport := fun _ => Except.error "unused" }

/-- A planner response with a brace span that is not valid JSON. -/
def capsPlanMalformed : Caps :=
  { generate := fun req =>
      match req with
      | GenRequest.planning _ _ =>
        Except.ok { text := "\x7boops\x7d", usage := { inputTokens := 3, outputTokens := 4 } }
      | _ => Except.error "unused",
    search := fun _ _ => Except.error "unused",
    getQuote := fun _ => Except.error "unused",
    saveReport := fun _ => Except.error "unused" }

/-- A fully healthy run: one planned topic with one node and one question;
the search yields one contentful result; extraction yields one fact;
synthesis returns prose (falling back to the deterministic report). -/
def demoCaps : Caps :=
  { generate := fun req =>
      match req with
      | GenRequest.planning _ _ =>
        Except.ok
          { text := "\x7b\"topics\":[\x7b\"topic\":\"T\",\"chain\":[\x7b\"step_name\":\"S1\",\"intent\":\"I\",\"questions\":[\"q1\"],\"next_logic_step\":null\x7d]\x7d]\x7d",
            usage := { inputTokens := 10, outputTokens := 5 } }
      | GenRequest.extractFacts _ _ _ _ =>
        Except.ok { text := "[\"fact one\"]", usage := { inputTokens := 7, outputTokens := 3 } }
      | GenRequest.reasoning _ _ _ _ =>
        Except.ok { text := "Because.", usage := { inputTokens := 2, outputTokens := 1 } }
      | GenRequest.synthesis _ _ _ _ =>
        Except.ok { text := "no json", usage := { inputTokens := 20, outputTokens := 9 } },
    search := fun _ _ =>
      Except.ok [{ title := "t", content := some "c", link := "l" }],
    getQuote := fun _ => Except.ok { price := 1, change := 0, changePercent := 0, marketCap := none },
    saveReport := fun _ => Except.ok { id := "rid" } }

/-- Every capability fails. -/
def capsAllFail : Caps :=
  { generate := fun _ => Except.error "gen down",
    search := fun _ _ => Except.error "search down",
    getQuote := fun _ => Except.error "quote down",
    saveReport := fun _ => Except.error "db down" }

/-- Searches and extraction succeed, the reasoning call fails. -/
def capsReasonFail : Caps :=
  { generate := fun req =>
      match req with
      | GenRequest.reasoning _ _ _ _ => Except.error "reason down"
      | _ =>
        Except.ok { text := "[\"fact one\"]", usage := { inputTokens := 7, outputTokens := 3 } },
    search := fun _ _ =>
      Except.ok [{ title := "t", content := some "c", link := "l" }],
    getQuote := fun _ => Except.ok { price := 1, change := 0, changePercent := 0, marketCap := none },
    saveReport := fun _ => Except.ok { id := "rid" } }

/-- As `demoCaps` but persistence rejects. -/
def capsSaveFail : Caps :=
  { demoCaps with saveReport := fun _ => Except.error "db down" }

/-- A two-step node chain used by the ordering witness. -/
def nodeA : ResearchNode :=
  { id := "n-a", step_name := "Step A", intent := "IA", questions := ["qa"],
    findings := [], reasoning := "", next_logic_step := none }

def nodeB : ResearchNode :=
  { id := "n-b", step_name := "Step B", intent := "IB", questions := ["qb"],
    findings := [], reasoning := "", next_logic_step := none }

def demoChain : TopicChain := { topic := "TC", chain := [nodeA, nodeB] }

/-!
 ## C1 — planner fallback on unparseable output
-/

/-- C1 (counterexample): the claim says that any planner output that is
not parseable as the expected JSON makes `generateTopicChains` return the
single predefined fallback chain (non-empty).  A prose output with no
`{...}` span instead yields an *empty* chain list: `chains` is initialised
to `[]` and the fallback is only installed by the `catch`, which a failed
regex match never reaches. -/
theorem C1_counterexample :
    (generateTopicChains capsPlanProse "AAPL" Language.en).1 =
      Except.ok ([], { inputTokens := 10, outputTokens := 5 }) ∧
    fallbackChains "AAPL" ≠ [] :=
  ⟨by rfl, by decide⟩

/-- C1 (amended): when the planning generation call succeeds,
`generateTopicChains` never throws; if the text has a `{...}` span whose
`JSON.parse` throws, the result is the predefined fallback chain
(non-empty); if no span is present, or the span parses but `topics` is
missing or not an array, the result is the empty list. -/
theorem C1_planning_fallback (caps : Caps) (ticker : String) (lang : Language)
    (text : String) (usage : TokenUsage)
    (hgen : caps.generate (GenRequest.planning ticker lang) =
      Except.ok { text := text, usage := usage }) :
    (generateTopicChains caps ticker lang).1 =
      Except.ok (chainsFromResponse ticker text, usage) ∧
    (matchSpan '\x7b' '\x7d' text.data = none →
      chainsFromResponse ticker text = []) ∧
    (∀ span, matchSpan '\x7b' '\x7d' text.data = some span →
      JSONparse (String.mk span) = none →
      chainsFromResponse ticker text = fallbackChains ticker ∧
      chainsFromResponse ticker text ≠ []) ∧
    (∀ span parsed t, matchSpan '\x7b' '\x7d' text.data = some span →
      JSONparse (String.mk span) = some parsed →
      jsGetField parsed "topics" = Except.ok t →
      (∀ xs, t ≠ Json.arr xs) →
      chainsFromResponse ticker text = []) := by
  refine ⟨?_, ?_, ?_, ?_⟩
  · simp [generateTopicChains, hgen]
  · intro h
    simp [chainsFromResponse, h]
  · intro span h1 h2
    refine ⟨by simp [chainsFromResponse, h1, h2], ?_⟩
    simp [chainsFromResponse, h1, h2, fallbackChains]
  · intro span parsed t h1 h2 h3 h4
    rcases ht : t with _ | b | s | s | xs | ms
    · simp [chainsFromResponse, h1, h2, h3]
    · simp [chainsFromResponse, h1, h2, h3]
    · simp [chainsFromResponse, h1, h2, h3]
    · simp [chainsFromResponse, h1, h2, h3]
    · exact absurd rfl (ht ▸ h4 xs)
    · simp [chainsFromResponse, h1, h2, h3]

/-- Witness for C1 (amended): a malformed brace span produces the
non-empty fallback plan. -/
theorem C1_planning_fallback_witness :
    (generateTopicChains capsPlanMalformed "AAPL" Language.en).1 =
      Except.ok (fallbackChains "AAPL", { inputTokens := 3, outputTokens := 4 }) ∧
    fallbackChains "AAPL" ≠ [] := by
  have h := C1_planning_fallback capsPlanMalformed "AAPL" Language.en "\x7boops\x7d"
    { inputTokens := 3, outputTokens := 4 } (by rfl)
  obtain ⟨h1, _, h3, _⟩ := h
  have h4 := h3 ("\x7boops\x7d").data (by rfl) (by rfl)
  exact ⟨by rw [h1, h4.1], by decide⟩

/-!
 ## C2 — node-completion accounting
-/

theorem totalNodesOf_acc (chains : List TopicChain) (n : Nat) :
    chains.foldl (fun sum chain => sum + chain.chain.length) n =
      n + (chains.flatMap fun c => c.chain).length := by
  induction chains generalizing n with
  | nil => simp
  | cons c cs ih => simp [ih, List.flatMap_cons]; omega

theorem completedNodesOf_acc (chains : List TopicChain) (n : Nat) :
    chains.foldl
      (fun sum chain =>
        sum + (chain.chain.filter fun node => 0 < node.findings.length).length) n =
      n + ((chains.flatMap fun c => c.chain).filter
        fun node => 0 < node.findings.length).length := by
  induction chains generalizing n with
  | nil => simp
  | cons c cs ih => simp [ih, List.flatMap_cons, List.filter_append]; omega

/-- Any investigation produced by a run has `totalNodes`/`completedNodes`
computed by the two reduces over its own `topicChains`. -/
theorem run_investigation (caps : Caps) (ticker : String) (lang : Language)
    (inv : ResearchInvestigation)
    (h : (runDeepResearchV3 caps ticker lang).finalState.investigation = some inv) :
    inv.totalNodes = totalNodesOf inv.topicChains ∧
    inv.completedNodes = completedNodesOf inv.topicChains := by
  unfold runDeepResearchV3 at h
  split at h
  · simp at h
  · split at h
    · simp at h
    · simp only [] at h
      split at h
      · simp at h
      · simp only [Option.some.injEq] at h
        subst h
        exact ⟨rfl, rfl⟩

/-- C2: in every run that reaches synthesis, `investigation.totalNodes` is
the total node count of the completed chains, `completedNodes` counts
exactly the nodes with `findings.length > 0`, and a node all of whose
searches fail ends with `findings = []` (hence is excluded), without the
run throwing. -/
theorem C2_node_completion (caps : Caps) (ticker : String) (lang : Language)
    (inv : ResearchInvestigation)
    (hinv : (runDeepResearchV3 caps ticker lang).finalState.investigation = some inv) :
    inv.totalNodes = (inv.topicChains.flatMap fun c => c.chain).length ∧
    inv.completedNodes =
      ((inv.topicChains.flatMap fun c => c.chain).filter
        fun node => 0 < node.findings.length).length ∧
    ∀ node : ResearchNode,
      (∀ q ∈ node.questions, ∃ e, caps.search q 5 = Except.error e) →
      (executeNode caps ticker lang node).result.findings = [] := by
  obtain ⟨h1, h2⟩ := run_investigation caps ticker lang inv hinv
  refine ⟨?_, ?_, ?_⟩
  · rw [h1, totalNodesOf]
    simpa using totalNodesOf_acc inv.topicChains 0
  · rw [h2, completedNodesOf]
    simpa using completedNodesOf_acc inv.topicChains 0
  · intro node hfail
    have hdocs : nodeDocs caps node = [] := by
      rw [nodeDocs, List.flatten_eq_nil_iff]
      intro l hl
      rw [List.mem_map] at hl
      obtain ⟨q, hq, rfl⟩ := hl
      obtain ⟨e, he⟩ := hfail q hq
      simp [searchOne, he]
    simp [executeNode, extractOutcome, hdocs]

/-- As `demoCaps` but every search rejects: the run still completes, with
a degraded (zero-findings, not-completed) node. -/
def capsSearchFail : Caps :=
  { demoCaps with search := fun _ _ => Except.error "down" }

/-- The investigation produced by the `capsSearchFail` run. -/
def demoInvDegraded : ResearchInvestigation :=
  { ticker := "AAPL",
    topicChains :=
      [{ topic := "T",
         chain := [{ id := "topic-1-node-1", step_name := "S1", intent := "I",
                     questions := ["q1"], findings := [], reasoning := "",
                     next_logic_step := none }] }],
    totalNodes := 1,
    completedNodes := 0 }

/-- Witness for C2: in a completed run whose only node lost all its
searches, `completedNodes` counts zero of one nodes and the node's
findings are empty. -/
theorem C2_node_completion_witness :
    (runDeepResearchV3 capsSearchFail "AAPL" Language.en).finalState.investigation =
      some demoInvDegraded ∧
    demoInvDegraded.completedNodes =
      ((demoInvDegraded.topicChains.flatMap fun c => c.chain).filter
        fun node => 0 < node.findings.length).length ∧
    (executeNode capsSearchFail "AAPL" Language.en nodeA).result.findings = [] := by
  have hinv : (runDeepResearchV3 capsSearchFail "AAPL" Language.en).finalState.investigation =
      some demoInvDegraded := by rfl
  have h := C2_node_completion capsSearchFail "AAPL" Language.en demoInvDegraded hinv
  exact ⟨hinv, h.2.1, h.2.2 nodeA (fun q _ => ⟨"down", rfl⟩)⟩

/-!
 ## C3 — `executeNode` degrades instead of throwing
-/

/-- C3: `executeNode` is a total function of its capabilities (the source
function catches every capability failure and never rejects), and each
failure mode degrades independently: a rejected search contributes no docs
and logs an error-flagged `search_results` event that appears in the
node's log list; a rejected extraction call — or an extraction response
with no `[...]` span or an unparseable span — yields zero findings; and
when findings exist and the reasoning call rejects, the reasoning is the
deterministic fallback sentence, which in English reads
"Found N facts related to <intent>". -/
theorem C3_executeNode_degrades (caps : Caps) (ticker : String) (lang : Language)
    (node : ResearchNode) :
    (∀ q e, q ∈ node.questions → caps.search q 5 = Except.error e →
      (searchOne caps node.id q).1 = [] ∧
      searchFailLog node.id q ∈ (executeNode caps ticker lang node).logs) ∧
    (∀ e, caps.generate (GenRequest.extractFacts ticker node.intent (nodeDocs caps node) lang) =
        Except.error e →
      (executeNode caps ticker lang node).result.findings = []) ∧
    (∀ resp, 0 < (nodeDocs caps node).length →
      caps.generate (GenRequest.extractFacts ticker node.intent (nodeDocs caps node) lang) =
        Except.ok resp →
      (executeNode caps ticker lang node).result.findings = parseFindings resp.text) ∧
    (∀ t, (matchSpan '[' ']' t.data = none → parseFindings t = []) ∧
      (∀ sp, matchSpan '[' ']' t.data = some sp → JSONparse (String.mk sp) = none →
        parseFindings t = [])) ∧
    (∀ e, 0 < (executeNode caps ticker lang node).result.findings.length →
      caps.generate (GenRequest.reasoning ticker node.intent
        (executeNode caps ticker lang node).result.findings lang) = Except.error e →
      (executeNode caps ticker lang node).result.reasoning =
        fallbackReasoning lang
          (executeNode caps ticker lang node).result.findings.length node.intent) ∧
    (∀ n intent, fallbackReasoning Language.en n intent =
      "Found " ++ toString n ++ " facts related to " ++ intent) := by
  refine ⟨?_, ?_, ?_, ?_, ?_, fun n intent => rfl⟩
  · intro q e hq he
    refine ⟨by simp [searchOne, he], ?_⟩
    have hmem : searchFailLog node.id q ∈ (searchOne caps node.id q).2 := by
      simp [searchOne, he]
    have hm2 : searchFailLog node.id q ∈ nodeSearchLogs caps node := by
      rw [nodeSearchLogs, List.mem_flatten]
      exact ⟨(searchOne caps node.id q).2, List.mem_map_of_mem _ hq, hmem⟩
    simp only [executeNode, List.mem_cons, List.mem_append]
    exact Or.inl (Or.inr hm2)
  · intro e he
    simp only [executeNode, extractOutcome, he]
    split <;> simp
  · intro resp hdocs he
    simp only [executeNode, extractOutcome, he, if_pos hdocs]
  · intro t
    constructor
    · intro h
      simp [parseFindings, h]
    · intro sp h1 h2
      simp [parseFindings, h1, h2]
  · intro e hlen he
    simp only [executeNode] at hlen he ⊢
    simp only [reasoningOutcome, if_pos hlen, he]

/-- Witness for C3 at failing capabilities: with every search rejected the
node logs the error-flagged event and ends with zero findings; with only
the reasoning call rejected the node falls back to the deterministic
English sentence. -/
theorem C3_executeNode_degrades_witness :
    searchFailLog "n-a" "qa" ∈
      (executeNode capsAllFail "AAPL" Language.en nodeA).logs ∧
    (executeNode capsAllFail "AAPL" Language.en nodeA).result.findings = [] ∧
    (executeNode capsReasonFail "AAPL" Language.en nodeA).result.reasoning =
      "Found 1 facts related to IA" := by
  have h1 := (C3_executeNode_degrades capsAllFail "AAPL" Language.en nodeA).1
    "qa" "search down" (by simp [nodeA]) rfl
  have h2 := (C3_executeNode_degrades capsAllFail "AAPL" Language.en nodeA).2.1
    "gen down" rfl
  have h5 := (C3_executeNode_degrades capsReasonFail "AAPL" Language.en nodeA).2.2.2.2.1
    "reason down" (by decide) rfl
  exact ⟨h1.2, h2, by rw [h5]; rfl⟩

/-!
 ## C6 — synthesizer fallback on malformed output
-/

/-- C6: when the synthesis generation call succeeds but its text has no
`{...}` span, or the span fails `JSON.parse`, or the parsed JSON fails the
Report-schema validation, `synthesizeReport` returns (rather than throws)
the deterministic fallback report, whose `verdict` contains the ticker,
the aggregated fact count, and the chain count. -/
theorem C6_report_fallback (caps : Caps) (ticker : String) (lang : Language)
    (chains : List TopicChain) (quote : MarketQuote) (text : String) (usage : TokenUsage)
    (hgen : caps.generate (GenRequest.synthesis ticker chains quote lang) =
      Except.ok { text := text, usage := usage })
    (hbad : matchSpan '\x7b' '\x7d' text.data = none ∨
      (∃ span, matchSpan '\x7b' '\x7d' text.data = some span ∧
        JSONparse (String.mk span) = none) ∨
      (∃ span parsed, matchSpan '\x7b' '\x7d' text.data = some span ∧
        JSONparse (String.mk span) = some parsed ∧ zodParseReport parsed = none)) :
    (synthesizeReport caps ticker lang chains quote).1 =
      Except.ok
        (fallbackReport ticker (aggregatedFindings chains).length chains.length, usage) ∧
    ∃ a b c d : String,
      (fallbackReport ticker (aggregatedFindings chains).length chains.length).verdict =
        a ++ ticker ++ b ++ toString (aggregatedFindings chains).length ++ c ++
          toString chains.length ++ d := by
  constructor
  · have hrep : reportFromText ticker text (aggregatedFindings chains).length chains.length =
        fallbackReport ticker (aggregatedFindings chains).length chains.length := by
      rcases hbad with h | ⟨span, h1, h2⟩ | ⟨span, parsed, h1, h2, h3⟩
      · simp [reportFromText, h]
      · simp [reportFromText, h1, h2]
      · simp [reportFromText, h1, h2, h3]
    simp [synthesizeReport, hgen, hrep]
  · exact ⟨"Analysis for ", ": Found ", " facts across ", " research topics.", rfl⟩

/-- Witness for C6: a prose synthesis response yields the fallback report
with ticker, fact count and chain count in the verdict. -/
theorem C6_report_fallback_witness :
    (synthesizeReport demoCaps "AAPL" Language.en []
      { price := 1, change := 0, changePercent := 0, marketCap := none }).1 =
      Except.ok (fallbackReport "AAPL" 0 0, { inputTokens := 20, outputTokens := 9 }) ∧
    (fallbackReport "AAPL" 0 0).verdict =
      "Analysis for AAPL: Found 0 facts across 0 research topics." := by
  have h := C6_report_fallback demoCaps "AAPL" Language.en []
    { price := 1, change := 0, changePercent := 0, marketCap := none }
    "no json" { inputTokens := 20, outputTokens := 9 } rfl (Or.inl rfl)
  exact ⟨h.1, rfl⟩

/-!
 ## C10 — node execution never mutates the planned nodes
-/

theorem mapNodes_empty (topicIndex : Nat) (xs : List Json) :
    ∀ (nodeIndex : Nat) (ns : List ResearchNode),
      mapNodes topicIndex nodeIndex xs = Except.ok ns →
      ∀ n ∈ ns, n.findings = [] ∧ n.reasoning = "" := by
  induction xs with
  | nil =>
    intro nodeIndex ns h n hn
    simp only [mapNodes, Except.ok.injEq] at h
    subst h
    simp at hn
  | cons x rest ih =>
    intro nodeIndex ns h n hn
    unfold mapNodes at h
    split at h
    · exact absurd h (by simp)
    · split at h
      · exact absurd h (by simp)
      · split at h
        · exact absurd h (by simp)
        · split at h
          · exact absurd h (by simp)
          · split at h
            · exact absurd h (by simp)
            · split at h
              · exact absurd h (by simp)
              · rename_i rest1 hrest
                simp only [Except.ok.injEq] at h
                subst h
                rcases List.mem_cons.mp hn with rfl | hmem
                · exact ⟨rfl, rfl⟩
                · exact ih (nodeIndex + 1) rest1 hrest n hmem

theorem mapTopics_empty (xs : List Json) :
    ∀ (topicIndex : Nat) (cs : List TopicChain),
      mapTopics topicIndex xs = Except.ok cs →
      ∀ c ∈ cs, ∀ n ∈ c.chain, n.findings = [] ∧ n.reasoning = "" := by
  induction xs with
  | nil =>
    intro topicIndex cs h c hc
    simp only [mapTopics, Except.ok.injEq] at h
    subst h
    simp at hc
  | cons x rest ih =>
    intro topicIndex cs h c hc
    unfold mapTopics at h
    split at h
    · exact absurd h (by simp)
    · split at h
      · exact absurd h (by simp)
      · split at h
        · exact absurd h (by simp)
        · rename_i chainNodes hnodes
          split at h
          · exact absurd h (by simp)
          · rename_i rest1 hrest
            simp only [Except.ok.injEq] at h
            subst h
            rcases List.mem_cons.mp hc with rfl | hmem
            · intro n hn
              unfold chainField at hnodes
              split at hnodes
              · exact mapNodes_empty topicIndex _ 0 chainNodes hnodes n hn
              · split at hnodes
                · exact absurd hnodes (by simp)
                · simp only [Except.ok.injEq] at hnodes
                  subst hnodes
                  simp at hn
            · exact ih (topicIndex + 1) rest1 hrest c hmem

/-- Every chain the planner can ever return consists of nodes with empty
`findings` and `reasoning`. -/
theorem chainsFromResponse_planned (ticker text : String) :
    ∀ c ∈ chainsFromResponse ticker text, ∀ n ∈ c.chain,
      n.findings = [] ∧ n.reasoning = "" := by
  intro c hc n hn
  unfold chainsFromResponse at hc
  split at hc
  · simp at hc
  · split at hc
    · -- JSON.parse failed: the fallback plan
      simp only [fallbackChains, List.mem_singleton] at hc
      subst hc
      simp only [List.mem_singleton] at hn
      subst hn
      exact ⟨rfl, rfl⟩
    · split at hc
      · simp only [fallbackChains, List.mem_singleton] at hc
        subst hc
        simp only [List.mem_singleton] at hn
        subst hn
        exact ⟨rfl, rfl⟩
      · split at hc
        · split at hc
          · rename_i cs hcs
            exact mapTopics_empty _ 0 cs hcs c hc n hn
          · simp only [fallbackChains, List.mem_singleton] at hc
            subst hc
            simp only [List.mem_singleton] at hn
            subst hn
            exact ⟨rfl, rfl⟩
        · simp at hc

/-- Inversion: a successful planning stage returns exactly the parse of
some generation text. -/
theorem generateTopicChains_ok (caps : Caps) (ticker : String) (lang : Language)
    (chains : List TopicChain) (usage : TokenUsage) (logs : List StreamLog)
    (h : generateTopicChains caps ticker lang = (Except.ok (chains, usage), logs)) :
    ∃ text, chains = chainsFromResponse ticker text := by
  unfold generateTopicChains at h
  split at h
  · simp at h
  · rename_i resp heq
    simp only [Prod.mk.injEq, Except.ok.injEq] at h
    exact ⟨resp.text, h.1.1.symm⟩

/-- Whatever `plan` the final state carries, all its nodes still have
empty `findings` and `reasoning`. -/
theorem run_plan_empty (caps : Caps) (ticker : String) (lang : Language)
    (chains2 : List TopicChain)
    (h : (runDeepResearchV3 caps ticker lang).finalState.plan = some chains2) :
    ∀ c ∈ chains2, ∀ n ∈ c.chain, n.findings = [] ∧ n.reasoning = "" := by
  unfold runDeepResearchV3 at h
  split at h
  · simp at h
  · rename_i chains planUsage planLogs heq
    have hfrom : ∃ text, chains = chainsFromResponse ticker text :=
      generateTopicChains_ok caps ticker lang chains planUsage planLogs heq
    obtain ⟨text, rfl⟩ := hfrom
    have hplanned := chainsFromResponse_planned ticker text
    split at h
    · simp only [Option.some.injEq] at h
      subst h
      exact hplanned
    · simp only [] at h
      split at h
      · simp only [Option.some.injEq] at h
        subst h
        exact hplanned
      · simp only [Option.some.injEq] at h
        subst h
        exact hplanned

/-- C10: `executeTopicChain` writes findings and reasoning only onto
fresh node copies in its returned chain — the updated chain keeps the
topic, the node count, and every per-node planning field (`id`,
`step_name`, `intent`, `questions`, `next_logic_step`) of its input, with
only `findings`/`reasoning` replaced by the node's execution result — and
the planned chains stored in `state.plan` still have empty findings and
reasoning in the final state of every run. -/
theorem C10_no_mutation (caps : Caps) (ticker : String) (lang : Language)
    (chain : TopicChain) :
    (executeTopicChain caps ticker lang chain).updatedChain.topic = chain.topic ∧
    (executeTopicChain caps ticker lang chain).updatedChain.chain.length =
      chain.chain.length ∧
    (∀ k (hk : k < chain.chain.length)
        (hk2 : k < (executeTopicChain caps ticker lang chain).updatedChain.chain.length),
      ((executeTopicChain caps ticker lang chain).updatedChain.chain.get ⟨k, hk2⟩).id =
          (chain.chain.get ⟨k, hk⟩).id ∧
      ((executeTopicChain caps ticker lang chain).updatedChain.chain.get ⟨k, hk2⟩).step_name =
          (chain.chain.get ⟨k, hk⟩).step_name ∧
      ((executeTopicChain caps ticker lang chain).updatedChain.chain.get ⟨k, hk2⟩).intent =
          (chain.chain.get ⟨k, hk⟩).intent ∧
      ((executeTopicChain caps ticker lang chain).updatedChain.chain.get ⟨k, hk2⟩).questions =
          (chain.chain.get ⟨k, hk⟩).questions ∧
      ((executeTopicChain caps ticker lang chain).updatedChain.chain.get ⟨k, hk2⟩).next_logic_step =
          (chain.chain.get ⟨k, hk⟩).next_logic_step ∧
      ((executeTopicChain caps ticker lang chain).updatedChain.chain.get ⟨k, hk2⟩).findings =
          (executeNode caps ticker lang (chain.chain.get ⟨k, hk⟩)).result.findings ∧
      ((executeTopicChain caps ticker lang chain).updatedChain.chain.get ⟨k, hk2⟩).reasoning =
          (executeNode caps ticker lang (chain.chain.get ⟨k, hk⟩)).result.reasoning) ∧
    (∀ chains2, (runDeepResearchV3 caps ticker lang).finalState.plan = some chains2 →
      ∀ c ∈ chains2, ∀ n ∈ c.chain, n.findings = [] ∧ n.reasoning = "") := by
  refine ⟨rfl, by simp [executeTopicChain], ?_, fun chains2 h => run_plan_empty caps ticker lang chains2 h⟩
  intro k hk hk2
  have hget : (executeTopicChain caps ticker lang chain).updatedChain.chain.get ⟨k, hk2⟩ =
      updatedNode caps ticker lang (chain.chain.get ⟨k, hk⟩) := by
    simp [executeTopicChain, List.getElem_map]
  rw [hget]
  simp [updatedNode]

/-- Witness for C10 on a concrete chain and run: the updated node keeps
its planning fields, and the final state's plan still shows empty
findings. -/
theorem C10_no_mutation_witness :
    ((executeTopicChain demoCaps "AAPL" Language.en demoChain).updatedChain.chain.get
        ⟨0, by decide⟩).questions = nodeA.questions ∧
    (∀ chains2,
      (runDeepResearchV3 demoCaps "AAPL" Language.en).finalState.plan = some chains2 →
      ∀ c ∈ chains2, ∀ n ∈ c.chain, n.findings = [] ∧ n.reasoning = "") := by
  have h := C10_no_mutation demoCaps "AAPL" Language.en demoChain
  exact ⟨(h.2.2.1 0 (by decide) (by decide)).2.2.2.1, h.2.2.2⟩

/-!
 ## C7 — persistence failure is non-fatal
-/

/-- C7: when planning, quote fetch and synthesis succeed (chain execution
never rejects) but the persistence save rejects, the final state still has
status `completed` with the in-memory report and investigation present,
`reportId` is absent, the state's `error` field stays empty, and the save
failure shows up as a warning log event. -/
theorem C7_save_failure_nonfatal (caps : Caps) (ticker : String) (lang : Language)
    (hplan : ∃ r, caps.generate (GenRequest.planning ticker lang) = Except.ok r)
    (hquote : ∃ q, caps.getQuote ticker = Except.ok q)
    (hsynth : ∀ t cs qt lg, ∃ r, caps.generate (GenRequest.synthesis t cs qt lg) = Except.ok r)
    (hsave : ∀ args, ∃ e, caps.saveReport args = Except.error e) :
    (runDeepResearchV3 caps ticker lang).finalState.status = RunStatus.completed ∧
    (runDeepResearchV3 caps ticker lang).finalState.reportId = none ∧
    (runDeepResearchV3 caps ticker lang).finalState.report.isSome = true ∧
    (runDeepResearchV3 caps ticker lang).finalState.investigation.isSome = true ∧
    (runDeepResearchV3 caps ticker lang).finalState.error = none ∧
    ∃ e, saveFailedLog lang e ∈ (runDeepResearchV3 caps ticker lang).finalState.logs := by
  obtain ⟨pr, hpr⟩ := hplan
  obtain ⟨qt, hqt⟩ := hquote
  simp only [runDeepResearchV3]
  split
  · rename_i e planLogs heq
    rw [generateTopicChains, hpr] at heq
    simp at heq
  · rename_i chains planUsage planLogs heq
    split
    · rename_i e heq2
      rw [hqt] at heq2
      simp at heq2
    · rename_i quote heq2
      split
      · rename_i e synthLogs heq3
        obtain ⟨sr, hsr⟩ := hsynth ticker
          ((chains.map (executeTopicChain caps ticker lang)).map fun c => c.updatedChain)
          quote lang
        rw [synthesizeReport, hsr] at heq3
        simp at heq3
      · rename_i report synthUsage synthLogs heq3
        obtain ⟨e, he⟩ := hsave
          { ticker := ticker, language := lang, report := report,
            investigation :=
              { ticker := ticker,
                topicChains :=
                  (chains.map (executeTopicChain caps ticker lang)).map fun c => c.updatedChain,
                totalNodes := totalNodesOf
                  ((chains.map (executeTopicChain caps ticker lang)).map fun c => c.updatedChain),
                completedNodes := completedNodesOf
                  ((chains.map (executeTopicChain caps ticker lang)).map fun c => c.updatedChain) },
            totalTokens :=
              (((chains.map (executeTopicChain caps ticker lang)).foldl
                  (fun acc c => acc.add c.usage) (zeroUsage.add planUsage)).add
                synthUsage).inputTokens +
              (((chains.map (executeTopicChain caps ticker lang)).foldl
                  (fun acc c => acc.add c.usage) (zeroUsage.add planUsage)).add
                synthUsage).outputTokens }
        simp only [he]
        refine ⟨trivial, trivial, rfl, rfl, trivial, e, ?_⟩
        simp

/-- Witness for C7: with every stage healthy except a rejecting save, the
run completes without a reportId and logs the save warning. -/
theorem C7_save_failure_nonfatal_witness :
    (runDeepResearchV3 capsSaveFail "AAPL" Language.en).finalState.status =
      RunStatus.completed ∧
    (runDeepResearchV3 capsSaveFail "AAPL" Language.en).finalState.reportId = none ∧
    ∃ e, saveFailedLog Language.en e ∈
      (runDeepResearchV3 capsSaveFail "AAPL" Language.en).finalState.logs := by
  have h := C7_save_failure_nonfatal capsSaveFail "AAPL" Language.en
    ⟨_, rfl⟩ ⟨_, rfl⟩ (fun t cs qt lg => ⟨_, rfl⟩) (fun args => ⟨"db down", rfl⟩)
  exact ⟨h.1, h.2.1, h.2.2.2.2.2⟩

/-!
 ## C5 — token accounting
-/

/-- The `inputTokens + outputTokens` contribution of one generation call. -/
def inOut (u : TokenUsage) : Nat := u.inputTokens + u.outputTokens

theorem inOut_add (a b : TokenUsage) : inOut (a.add b) = inOut a + inOut b := by
  simp [inOut, TokenUsage.add]
  omega

/-- `executeNode`'s accumulated usage is exactly the sum of its recorded
generation calls. -/
theorem executeNode_usage (caps : Caps) (ticker : String) (lang : Language)
    (node : ResearchNode) :
    inOut (executeNode caps ticker lang node).usage =
      ((executeNode caps ticker lang node).genCalls.map inOut).sum := by
  simp only [executeNode]
  cases h1 : (extractOutcome caps ticker lang node).2 <;>
    cases h2 : (reasoningOutcome caps ticker lang node
      (extractOutcome caps ticker lang node).1).2 <;>
    simp [h1, h2, inOut_add, inOut, TokenUsage.add, zeroUsage] <;> omega

theorem foldl_node_usage (caps : Caps) (ticker : String) (lang : Language)
    (nodes : List ResearchNode) (init : TokenUsage) :
    inOut (nodes.foldl
      (fun acc node => acc.add (executeNode caps ticker lang node).usage) init) =
      inOut init +
        (((nodes.map fun node => (executeNode caps ticker lang node).genCalls).flatten.map
          inOut).sum) := by
  induction nodes generalizing init with
  | nil => simp
  | cons n ns ih =>
    simp only [List.foldl_cons, List.map_cons, List.flatten_cons, List.map_append,
      List.sum_append, ih, inOut_add, executeNode_usage]
    omega

/-- `executeTopicChain`'s accumulated usage is the sum of its recorded
generation calls. -/
theorem executeTopicChain_usage (caps : Caps) (ticker : String) (lang : Language)
    (chain : TopicChain) :
    inOut (executeTopicChain caps ticker lang chain).usage =
      ((executeTopicChain caps ticker lang chain).genCalls.map inOut).sum := by
  simp only [executeTopicChain]
  simpa [inOut, zeroUsage] using foldl_node_usage caps ticker lang chain.chain zeroUsage

theorem foldl_chain_usage (l : List ChainOutcome) (init : TokenUsage)
    (h : ∀ c ∈ l, inOut c.usage = (c.genCalls.map inOut).sum) :
    inOut (l.foldl (fun acc c => acc.add c.usage) init) =
      inOut init + (((l.map fun c => c.genCalls).flatten.map inOut).sum) := by
  induction l generalizing init with
  | nil => simp
  | cons c cs ih =>
    have hc := h c (List.mem_cons_self c cs)
    have ihcs := ih (init.add c.usage) (fun d hd => h d (List.mem_cons_of_mem c hd))
    simp only [List.foldl_cons, List.map_cons, List.flatten_cons, List.map_append,
      List.sum_append]
    rw [ihcs, inOut_add, hc]
    omega

/-- C5: in every run that completes, `totalTokens` is exactly the sum of
`inputTokens + outputTokens` over the run's recorded generation calls
(planning, per-node extraction and reasoning, synthesis) — nothing
dropped, nothing double-counted. -/
theorem C5_token_accounting (caps : Caps) (ticker : String) (lang : Language)
    (hdone : (runDeepResearchV3 caps ticker lang).finalState.status = RunStatus.completed) :
    (runDeepResearchV3 caps ticker lang).finalState.totalTokens =
      some (((runDeepResearchV3 caps ticker lang).genCalls.map inOut).sum) := by
  unfold runDeepResearchV3 at hdone
  split at hdone
  · simp at hdone
  · rename_i chains planUsage planLogs heq
    split at hdone
    · simp at hdone
    · rename_i quote heq2
      simp only [] at hdone
      split at hdone
      · simp at hdone
      · rename_i report synthUsage synthLogs heq3
        have hfold := foldl_chain_usage (chains.map (executeTopicChain caps ticker lang))
          (zeroUsage.add planUsage) (fun c hc => by
            obtain ⟨ch, _, rfl⟩ := List.mem_map.mp hc
            exact executeTopicChain_usage caps ticker lang ch)
        simp only [runDeepResearchV3, heq, heq2, heq3, Option.some.injEq,
          List.map_cons, List.map_append, List.sum_cons, List.sum_append]
        show inOut (((chains.map (executeTopicChain caps ticker lang)).foldl
          (fun acc c => acc.add c.usage) (zeroUsage.add planUsage)).add synthUsage) = _
        rw [inOut_add, hfold, inOut_add]
        simp [inOut, zeroUsage]

/-- Witness for C5: the demo run completes with `totalTokens = 57`, equal
to the sum over its four recorded generation calls
(planning 15, extraction 10, reasoning 3, synthesis 29). -/
theorem C5_token_accounting_witness :
    (runDeepResearchV3 demoCaps "AAPL" Language.en).finalState.status =
      RunStatus.completed ∧
    (runDeepResearchV3 demoCaps "AAPL" Language.en).finalState.totalTokens = some 57 ∧
    ((runDeepResearchV3 demoCaps "AAPL" Language.en).genCalls.map inOut).sum = 57 := by
  have h := C5_token_accounting demoCaps "AAPL" Language.en (by rfl)
  refine ⟨by rfl, ?_, by rfl⟩
  rw [h]
  rfl

/-!
 ## C4 — strict sequential node order within a chain
-/

/-- In a flattening of non-empty blocks, the last element of block `k` sits
immediately before the first element of block `k+1`. -/
theorem flatten_boundary {α : Type} (L : List (List α)) (k : Nat)
    (hk : k + 1 < L.length) (hne : ∀ l ∈ L, l ≠ []) :
    ∃ i, L.flatten[i]? = (L.get ⟨k, by omega⟩).getLast? ∧
         L.flatten[i + 1]? = (L.get ⟨k + 1, hk⟩).head? := by
  induction L generalizing k with
  | nil => simp at hk
  | cons l ls ih =>
    cases k with
    | zero =>
      have hl : l ≠ [] := hne l (List.mem_cons_self _ _)
      have hlen : 0 < l.length := List.length_pos.mpr hl
      refine ⟨l.length - 1, ?_, ?_⟩
      · rw [List.flatten_cons, List.getElem?_append_left (by omega)]
        simp only [List.get]
        rw [List.getLast?_eq_getElem?]
      · rw [List.flatten_cons, List.getElem?_append_right (by omega)]
        have hzero : l.length - 1 + 1 - l.length = 0 := by omega
        rw [hzero]
        cases ls with
        | nil => simp at hk
        | cons m ms =>
          have hm : m ≠ [] := hne m (by simp)
          rw [List.flatten_cons]
          cases m with
          | nil => exact absurd rfl hm
          | cons a as => simp [List.get]
    | succ k2 =>
      have hk2 : k2 + 1 < ls.length := by simpa using hk
      obtain ⟨i, h1, h2⟩ := ih k2 hk2 (fun l2 hl2 => hne l2 (List.mem_cons_of_mem _ hl2))
      refine ⟨l.length + i, ?_, ?_⟩
      · rw [List.flatten_cons, List.getElem?_append_right (by omega)]
        have hi : l.length + i - l.length = i := by omega
        rw [hi]
        exact h1
      · rw [List.flatten_cons, List.getElem?_append_right (by omega)]
        have hi : l.length + i + 1 - l.length = i + 1 := by omega
        rw [hi]
        exact h2

/-- C4: within a chain, nodes execute strictly in list order: in
`executeTopicChain`'s log trace, the completion event of node `k` (which
is emitted after node `k`'s findings and reasoning are recorded in the
updated chain) occurs at a strictly earlier position than the
`mission_start` event of node `k+1` (the first event of node `k+1`'s
execution).  The loop awaits each `executeNode` before the next iteration,
so the embedding of the loop is this sequential fold. -/
theorem C4_chain_sequential (caps : Caps) (ticker : String) (lang : Language)
    (chain : TopicChain) (k : Nat) (hk : k + 1 < chain.chain.length) :
    ∃ i j : Nat, i < j ∧
      (executeTopicChain caps ticker lang chain).logs[i]? =
        some (nodeCompletedLog lang (chain.chain.get ⟨k, by omega⟩)
          (executeNode caps ticker lang (chain.chain.get ⟨k, by omega⟩)).result) ∧
      (executeTopicChain caps ticker lang chain).logs[j]? =
        some (nodeStartLog lang (chain.chain.get ⟨k + 1, hk⟩)) := by
  have hne : ∀ l ∈ chain.chain.map (nodeBlock caps ticker lang), l ≠ [] := by
    intro l hl
    obtain ⟨n, _, rfl⟩ := List.mem_map.mp hl
    simp [nodeBlock]
  have hlen : k + 1 < (chain.chain.map (nodeBlock caps ticker lang)).length := by
    simpa using hk
  obtain ⟨i, h1, h2⟩ := flatten_boundary _ k hlen hne
  refine ⟨i + 1, i + 2, by omega, ?_, ?_⟩
  · simp only [executeTopicChain, List.getElem?_cons_succ]
    rw [h1]
    simp [nodeBlock, List.getLast?_append]
  · have h2x : (chain.chain.map (nodeBlock caps ticker lang)).flatten[i + 1]? =
        some (nodeStartLog lang (chain.chain.get ⟨k + 1, hk⟩)) := by
      rw [h2]
      have hb : (chain.chain.map (nodeBlock caps ticker lang)).get ⟨k + 1, hlen⟩ =
          nodeBlock caps ticker lang (chain.chain.get ⟨k + 1, hk⟩) := by
        simp
      rw [hb, nodeBlock]
      simp [executeNode]
    simp only [executeTopicChain, List.getElem?_cons_succ]
    exact h2x

/-- Witness for C4 on the two-node demo chain: the completion of node A
precedes the start of node B in the emitted trace. -/
theorem C4_chain_sequential_witness :
    ∃ i j : Nat, i < j ∧
      (executeTopicChain demoCaps "AAPL" Language.en demoChain).logs[i]? =
        some (nodeCompletedLog Language.en (demoChain.chain.get ⟨0, by decide⟩)
          (executeNode demoCaps "AAPL" Language.en (demoChain.chain.get ⟨0, by decide⟩)).result) ∧
      (executeTopicChain demoCaps "AAPL" Language.en demoChain).logs[j]? =
        some (nodeStartLog Language.en (demoChain.chain.get ⟨1, by decide⟩)) :=
  C4_chain_sequential demoCaps "AAPL" Language.en demoChain 0 (by decide)

/-!
 ## C8 — stream protocol round-trip
-/

/-- One buffering step: prepend a remainder to the first complete line (or
to the new remainder when no complete line exists). -/
def consLines (r : List Char) (p : List (List Char) × List Char) :
    List (List Char) × List Char :=
  match p.1 with
  | [] => ([], r ++ p.2)
  | l :: ls => ((r ++ l) :: ls, p.2)

theorem consLines_nil (p : List (List Char) × List Char) : consLines [] p = p := by
  rcases p with ⟨l, r⟩
  cases l <;> simp [consLines]

theorem splitLines_cons_ne (c : Char) (cs : List Char) (hc : ¬ c = '\n') :
    splitLines (c :: cs) = consLines [c] (splitLines cs) := by
  simp only [splitLines, if_neg hc, consLines]
  cases h : (splitLines cs).1 <;> simp

theorem splitLines_append (a b : List Char) :
    splitLines (a ++ b) =
      ((splitLines a).1 ++ (consLines (splitLines a).2 (splitLines b)).1,
       (consLines (splitLines a).2 (splitLines b)).2) := by
  induction a with
  | nil => simp [splitLines, consLines_nil]
  | cons c cs ih =>
    by_cases hc : c = '\n'
    · subst hc
      simp only [List.cons_append, splitLines, if_pos rfl, ih]
      rcases h3 : (splitLines b).1 with _ | ⟨n2, ns⟩ <;> simp_all [consLines]
    · rw [List.cons_append, splitLines_cons_ne c _ hc, splitLines_cons_ne c _ hc, ih]
      rcases h1 : (splitLines cs).1 with _ | ⟨l, ls⟩ <;>
        rcases h2 : (consLines (splitLines cs).2 (splitLines b)).1 with _ | ⟨m, ms⟩ <;>
        simp_all [consLines] <;>
        rcases h3 : (splitLines b).1 with _ | ⟨n2, ns⟩ <;> simp_all

/-- The buffer kept by the splitter never contains a newline. -/
theorem splitLines_no_nl (cs : List Char) : '\n' ∉ (splitLines cs).2 := by
  induction cs with
  | nil => decide
  | cons c cs ih =>
    by_cases hc : c = '\n'
    · subst hc
      simpa [splitLines] using ih
    · rw [splitLines_cons_ne c cs hc]
      cases h : (splitLines cs).1 with
      | nil =>
        have hred : (consLines [c] (splitLines cs)).2 = c :: (splitLines cs).2 := by
          simp [consLines, h]
        rw [hred]
        intro hmem
        rcases List.mem_cons.mp hmem with heq | hmem2
        · exact hc heq.symm
        · exact ih hmem2
      | cons l ls => simpa [consLines, h] using ih

/-- A newline-free buffer splits into no complete lines. -/
theorem splitLines_of_no_nl (cs : List Char) (h : '\n' ∉ cs) :
    splitLines cs = ([], cs) := by
  induction cs with
  | nil => rfl
  | cons c cs ih =>
    have hc : ¬ c = '\n' := fun he => h (he ▸ List.mem_cons_self c cs)
    have hcs : '\n' ∉ cs := fun hm => h (List.mem_cons_of_mem c hm)
    rw [splitLines_cons_ne c cs hc, ih hcs]
    simp [consLines]

/-- Processing a whole byte stream at once: every complete line, then the
final leftover. -/
def processAll (cs : List Char) : List Json :=
  (splitLines cs).1.filterMap parseLine ++ (parseLine (splitLines cs).2).toList

theorem processAll_split (x y : List Char) :
    processAll (x ++ y) =
      (splitLines x).1.filterMap parseLine ++ processAll ((splitLines x).2 ++ y) := by
  have hx : '\n' ∉ (splitLines x).2 := splitLines_no_nl x
  simp only [processAll, splitLines_append, splitLines_of_no_nl _ hx]
  rcases h3 : (splitLines y).1 with _ | ⟨l, ls⟩ <;>
    simp [consLines, h3, List.filterMap_append]

/-- The incremental reader equals whole-stream processing, for any chunk
partition. -/
theorem readLoop_eq (chunks : List (List Char)) (buffer : List Char)
    (hb : '\n' ∉ buffer) :
    readLoop chunks buffer = processAll (buffer ++ chunks.flatten) := by
  induction chunks generalizing buffer with
  | nil =>
    simp [readLoop, processAll, splitLines_of_no_nl _ hb]
  | cons ch rest ih =>
    rw [readLoop, ih (splitLines (buffer ++ ch)).2 (splitLines_no_nl _),
      List.flatten_cons, ← List.append_assoc, processAll_split (buffer ++ ch) rest.flatten]

theorem splitLines_line (s : List Char) (h : '\n' ∉ s) :
    splitLines (s ++ ['\n']) = ([s], []) := by
  rw [splitLines_append, splitLines_of_no_nl s h]
  simp [splitLines, consLines]

/-- If every char of `dropWhile isJsWs cs` is whitespace, it is empty. -/
theorem dropWhile_all_ws (cs : List Char)
    (h : ∀ y ∈ cs.dropWhile isJsWs, isJsWs y) : cs.dropWhile isJsWs = [] := by
  induction cs with
  | nil => rfl
  | cons c cs ih =>
    by_cases hc : isJsWs c
    · rw [List.dropWhile_cons_of_pos hc] at h ⊢
      exact ih h
    · rw [List.dropWhile_cons_of_neg hc] at h
      exact absurd (h c (List.mem_cons_self c cs)) hc

/-- A string that `JSON.parse` accepts is not all-whitespace. -/
theorem JSONparse_trim_ne (s : String) (v : Json) (h : JSONparse s = some v) :
    jsTrim s.data ≠ [] := by
  intro hnil
  have hall : ∀ y ∈ (s.data.dropWhile isJsWs).reverse, isJsWs y := by
    have h2 : (s.data.dropWhile isJsWs).reverse.dropWhile isJsWs = [] := by
      have := congrArg List.reverse hnil
      rwa [jsTrim, List.reverse_reverse] at this
    rw [List.dropWhile_eq_nil_iff] at h2
    exact h2
  have hd : s.data.dropWhile isJsWs = [] :=
    dropWhile_all_ws _ fun y hy => hall y (List.mem_reverse.mpr hy)
  rw [JSONparse, parseValue, hd] at h
  simp at h

/-- Whole-stream processing of the writer's output recovers the snapshot
sequence. -/
theorem processAll_written (vs : List Json)
    (hrt : ∀ v ∈ vs, JSONparse (stringify v) = some v)
    (hnl : ∀ v ∈ vs, '\n' ∉ stringifyChars v) :
    processAll (writtenStream vs) = vs := by
  induction vs with
  | nil => simp [processAll, writtenStream, splitLines, parseLine, jsTrim]
  | cons v vs ih =>
    have hv := hrt v (List.mem_cons_self v vs)
    have hnlv := hnl v (List.mem_cons_self v vs)
    have hline : splitLines ((stringifyChars v ++ ['\n']) ++ writtenStream vs) =
        (stringifyChars v :: (splitLines (writtenStream vs)).1,
         (splitLines (writtenStream vs)).2) := by
      rw [splitLines_append, splitLines_line _ hnlv]
      rcases h3 : (splitLines (writtenStream vs)).1 with _ | ⟨l, ls⟩ <;>
        simp [consLines, h3]
    have hparse : parseLine (stringifyChars v) = some v := by
      rw [parseLine, if_neg]
      · exact hv
      · simpa using JSONparse_trim_ne (stringify v) v hv
    rw [writtenStream, List.map_cons, List.flatten_cons]
    rw [show (stringifyChars v ++ ['\n']) ++
        ((vs.map fun w => stringifyChars w ++ ['\n']).flatten) =
        (stringifyChars v ++ ['\n']) ++ writtenStream vs from rfl]
    rw [processAll, hline]
    simp only [List.filterMap_cons, hparse, List.cons_append]
    show v :: processAll (writtenStream vs) = v :: vs
    rw [ih (fun w hw => hrt w (List.mem_cons_of_mem v hw))
      (fun w hw => hnl w (List.mem_cons_of_mem v hw))]

/-- C8: the stream protocol round-trips.  For every snapshot sequence
written by `createStreamableValue` (one `JSON.stringify` line per
snapshot) and every partition of the written byte stream into chunks —
including chunks that split a line mid-JSON — `readStreamableValue`
yields exactly the snapshot sequence in order, buffering partial trailing
lines until their newline arrives.  The hypotheses state that each
snapshot JSON-serializes faithfully (its stringify output parses back to
it and contains no raw newline — true of every value `JSON.stringify` can
produce, since it escapes control characters). -/
theorem C8_stream_roundtrip (snapshots : List Json) (chunks : List (List Char))
    (hjoin : chunks.flatten = writtenStream snapshots)
    (hrt : ∀ v ∈ snapshots, JSONparse (stringify v) = some v)
    (hnl : ∀ v ∈ snapshots, '\n' ∉ stringifyChars v) :
    readStreamableValue chunks = snapshots := by
  rw [readStreamableValue, readLoop_eq chunks [] (by simp), List.nil_append, hjoin,
    processAll_written snapshots hrt hnl]

def demoSnapshotA : Json := Json.obj [("a", Json.num "1")]

def demoSnapshotB : Json := Json.obj [("b", Json.num "2")]

/-- Witness for C8: two snapshots whose written stream arrives in two
chunks, the second line split mid-JSON; the reader still yields exactly
the two snapshots in order. -/
theorem C8_stream_roundtrip_witness :
    readStreamableValue [("\x7b\"a\":1\x7d\n\x7b\"b\"").data, (":2\x7d\n").data] =
      [demoSnapshotA, demoSnapshotB] := by
  apply C8_stream_roundtrip
  · rfl
  · intro v hv
    rcases List.mem_cons.mp hv with rfl | hv2
    · rfl
    rcases List.mem_cons.mp hv2 with rfl | hv3
    · rfl
    · simp at hv3
  · intro v hv
    rcases List.mem_cons.mp hv with rfl | hv2
    · decide
    rcases List.mem_cons.mp hv2 with rfl | hv3
    · decide
    · simp at hv3

end SSA
